import Mathlib

/-!
Shallow embedding of the socket.io signaling server in `src/server.js`
(rooms / meetings lifecycle, presence notifications, WebRTC signaling relay).

Modelling decisions, all taken from the source:
* `rooms` is the global JS object `rooms` (`rooms[meetingId] = { hostId,
  users: Map<socketId, username> }`).  JS objects and `Map`s are modelled as
  association lists with JS `Map` semantics: `set` replaces the value of an
  existing key in place, otherwise appends; `delete` removes the key.
* Per-socket custom fields (`socket.meetingId`, `socket.username`) are kept in
  a `sockets` association list from socket id to a `SocketInfo`.
* socket.io room membership (entered by `socket.join`, left automatically on
  disconnect, never left explicitly in this code base) is the list `sio` of
  `(roomName, socketId)` pairs.  `socket.to(room).emit` delivers to every
  member of the socket.io room except the sender; `io.to(x).emit` delivers to
  the socket whose id is `x` while it is connected (each socket sits in a
  personal room named after its id) and to any socket that joined a room
  named `x`.
* `uuidv4()` in the `create-meeting` handler produces a fresh identifier; the
  identifier is carried on the event (`Event.createMeeting`), since it is data
  chosen outside the handler.
* server.js registers handlers only for `create-meeting`, `join-meeting`,
  `offer`, `answer`, `ice-candidate` and `disconnect`.  Any other client
  event — in particular a `leave-room` / `leave-meeting` request — matches no
  handler and is ignored by socket.io; `Event.leaveRoom` models such a
  request, and its semantics (no state change, no output) is exactly the
  absence of a handler in the source.
* Signaling payloads (`offer`, `answer`, `candidate`/`sdpMid`/`sdpMLineIndex`)
  are opaque to the server and modelled as a single `String`.
-/

namespace Meeting

/-- JS `Map.get` / object indexing on an association list. -/
def mapGet {α β : Type} [DecidableEq α] (m : List (α × β)) (k : α) : Option β :=
  (m.find? (fun p => p.1 = k)).map (fun p => p.2)

/-- JS `Map.set` / object assignment: replace the value of an existing key in
place, otherwise append the new binding. -/
def mapSet {α β : Type} [DecidableEq α] : List (α × β) → α → β → List (α × β)
  | [], k, v => [(k, v)]
  | (k', v') :: rest, k, v =>
      if k' = k then (k, v) :: rest else (k', v') :: mapSet rest k v

/-- JS `Map.delete` / `delete` on an object: remove the binding of a key. -/
def mapDelete {α β : Type} [DecidableEq α] (m : List (α × β)) (k : α) : List (α × β) :=
  m.filter (fun p => ¬ p.1 = k)

/-- One room: `rooms[meetingId] = { hostId, users: Map<socketId, username> }`. -/
structure Room where
  hostId : String
  users : List (String × String)
  deriving Repr, DecidableEq

/-- The custom fields the handlers store on a socket object
(`socket.meetingId`, `socket.username`). -/
structure SocketInfo where
  meetingId : Option String
  username : Option String
  deriving Repr, DecidableEq

/-- The whole server state: the `rooms` global, the per-socket fields, the
socket.io room membership pairs and the set of connected socket ids. -/
structure ServerState where
  rooms : List (String × Room)
  sockets : List (String × SocketInfo)
  sio : List (String × String)
  connected : List String
  deriving Repr, DecidableEq

/-- Messages the server emits to clients (socket.io events with payloads). -/
inductive Msg where
  | meetingCreated (meetingId : String)
  | meetingError (reason : String)
  | existingUsers (list : List (String × String))
  | userJoined (id : String) (username : String)
  | userLeft (id : String)
  | meetingEnded
  | offerMsg (sender : String) (payload : String)
  | answerMsg (sender : String) (payload : String)
  | iceMsg (sender : String) (payload : String)
  deriving Repr, DecidableEq

/-- Client-observable events driving the server: a transport connect, the five
handled client requests, a disconnect, and an unhandled leave request. -/
inductive Event where
  | connect (sid : String)
  | createMeeting (sid : String) (freshId : String) (username : Option String)
  | joinMeeting (sid : String) (meetingId : String) (username : String)
  | offer (sid : String) (target : String) (payload : String)
  | answer (sid : String) (target : String) (payload : String)
  | iceCandidate (sid : String) (target : String) (payload : String)
  | leaveRoom (sid : String)
  | disconnect (sid : String)
  deriving Repr, DecidableEq

/-- JS `username || "Host"`: `undefined` and the empty string fall back. -/
def orHost (u : Option String) : String :=
  match u with
  | none => "Host"
  | some n => if n = "" then "Host" else n

/-- `socket.join(room)`: add the socket to the socket.io room (a set). -/
def sioJoin (sio : List (String × String)) (mid sid : String) : List (String × String) :=
  if (mid, sid) ∈ sio then sio else sio ++ [(mid, sid)]

/-- `socket.to(mid).emit(msg)`: one delivery per member of the socket.io room
`mid` other than the sender. -/
def broadcast (sio : List (String × String)) (mid sender : String) (m : Msg) :
    List (String × Msg) :=
  (sio.filter (fun p => p.1 = mid ∧ ¬ p.2 = sender)).map (fun p => (p.2, m))

/-- Recipients of `io.to(x).emit`: the connected socket whose id is `x` (its
personal room) plus any socket that joined a room named `x`. -/
def ioTo (s : ServerState) (target : String) : List String :=
  (if target ∈ s.connected then [target] else []) ++
    (s.sio.filter (fun p => p.1 = target)).map (fun p => p.2)

/-- `socket.meetingId` as read by the disconnect handler. -/
def lookupMid (s : ServerState) (sid : String) : Option String :=
  (mapGet s.sockets sid).bind SocketInfo.meetingId

/-- The `create-meeting` handler (server.js lines 94-109). -/
def onCreate (s : ServerState) (sid mid : String) (uname : Option String) :
    ServerState × List (String × Msg) :=
  let name := orHost uname
  ({ s with
      rooms := mapSet s.rooms mid ⟨sid, [(sid, name)]⟩,
      sio := sioJoin s.sio mid sid,
      sockets := mapSet s.sockets sid ⟨some mid, some name⟩ },
   [(sid, .meetingCreated mid)])

/-- The `join-meeting` handler (server.js lines 112-143).  Note the member is
added to the map before the "existing users" list is computed, and the joiner
is filtered out of that list. -/
def onJoin (s : ServerState) (sid mid uname : String) :
    ServerState × List (String × Msg) :=
  match mapGet s.rooms mid with
  | none => (s, [(sid, .meetingError "Meeting not found")])
  | some room =>
      let users1 := mapSet room.users sid uname
      let sio1 := sioJoin s.sio mid sid
      let existing := users1.filter (fun p => ¬ p.1 = sid)
      ({ s with
          rooms := mapSet s.rooms mid ⟨room.hostId, users1⟩,
          sio := sio1,
          sockets := mapSet s.sockets sid ⟨some mid, some uname⟩ },
       (sid, .existingUsers existing) :: broadcast sio1 mid sid (.userJoined sid uname))

/-- The `disconnect` handler (server.js lines 170-189), together with the
socket.io built-in cleanup (the socket leaves every room and the connected
set before the handler observes the state).  The handler broadcasts
`user-left` unconditionally and additionally ends the meeting when the
departing socket is the host. -/
def onDisconnect (s : ServerState) (sid : String) : ServerState × List (String × Msg) :=
  let sio1 := s.sio.filter (fun p => ¬ p.2 = sid)
  let connected1 := s.connected.filter (fun c => ¬ c = sid)
  let sockets1 := mapDelete s.sockets sid
  let base : ServerState :=
    { rooms := s.rooms, sockets := sockets1, sio := sio1, connected := connected1 }
  match lookupMid s sid with
  | none => (base, [])
  | some mid =>
      match mapGet s.rooms mid with
      | none => (base, [])
      | some room =>
          let users1 := mapDelete room.users sid
          let outLeft := broadcast sio1 mid sid (.userLeft sid)
          if sid = room.hostId then
            ({ base with rooms := mapDelete (mapSet s.rooms mid ⟨room.hostId, users1⟩) mid },
             outLeft ++ broadcast sio1 mid sid .meetingEnded)
          else
            ({ base with rooms := mapSet s.rooms mid ⟨room.hostId, users1⟩ }, outLeft)

/-- One server step: dispatch an event to its handler.  The three signaling
handlers (server.js lines 146-167) forward the payload tagged with the
sender's id and touch no state; `leaveRoom` has no handler in server.js and
is dropped by socket.io. -/
def step (s : ServerState) (e : Event) : ServerState × List (String × Msg) :=
  match e with
  | .connect sid =>
      ({ s with
          connected := s.connected ++ [sid],
          sockets := mapSet s.sockets sid ⟨none, none⟩ }, [])
  | .createMeeting sid mid uname => onCreate s sid mid uname
  | .joinMeeting sid mid uname => onJoin s sid mid uname
  | .offer sid target payload => (s, (ioTo s target).map (fun t => (t, .offerMsg sid payload)))
  | .answer sid target payload => (s, (ioTo s target).map (fun t => (t, .answerMsg sid payload)))
  | .iceCandidate sid target payload =>
      (s, (ioTo s target).map (fun t => (t, .iceMsg sid payload)))
  | .leaveRoom _ => (s, [])
  | .disconnect sid => onDisconnect s sid

/-- The state part of a step. -/
def step1 (s : ServerState) (e : Event) : ServerState := (step s e).1

/-- Run a trace of events from a state. -/
def run (s : ServerState) (tr : List Event) : ServerState := tr.foldl step1 s

/-- The empty server state at process start. -/
def init : ServerState := ⟨[], [], [], []⟩

/-- Does this event record `sid` creating or joining room `rid`? -/
def isCreateOrJoin (rid sid : String) (e : Event) : Bool :=
  match e with
  | .createMeeting s r _ => s = sid ∧ r = rid
  | .joinMeeting s r _ => s = sid ∧ r = rid
  | _ => false

/-- `sid` created or joined room `rid` somewhere in the trace. -/
def createdOrJoined (tr : List Event) (rid sid : String) : Prop :=
  tr.any (isCreateOrJoin rid sid) = true

/-! ### Lemmas about the JS map model -/

theorem mapGet_cons {α β : Type} [DecidableEq α] (k' : α) (v' : β) (rest : List (α × β))
    (k : α) : mapGet ((k', v') :: rest) k = if k' = k then some v' else mapGet rest k := by
  by_cases h : k' = k <;> simp [mapGet, List.find?, h]

theorem mapGet_mapSet_self {α β : Type} [DecidableEq α] (m : List (α × β)) (k : α) (v : β) :
    mapGet (mapSet m k v) k = some v := by
  induction m with
  | nil => simp [mapSet, mapGet_cons, mapGet]
  | cons a rest ih =>
      obtain ⟨k', v'⟩ := a
      by_cases h : k' = k
      · simp [mapSet, h, mapGet_cons]
      · simp [mapSet, h, mapGet_cons, ih]

theorem mapGet_mapSet_ne {α β : Type} [DecidableEq α] (m : List (α × β)) (k k2 : α) (v : β)
    (h : ¬ k = k2) : mapGet (mapSet m k2 v) k = mapGet m k := by
  have h' : ¬ k2 = k := fun hh => h hh.symm
  induction m with
  | nil => simp [mapSet, mapGet_cons, mapGet, h']
  | cons a rest ih =>
      obtain ⟨k', v'⟩ := a
      by_cases h2 : k' = k2
      · subst h2
        simp [mapSet, mapGet_cons, h']
      · simp [mapSet, h2, mapGet_cons, ih]

theorem mapGet_mapDelete_self {α β : Type} [DecidableEq α] (m : List (α × β)) (k : α) :
    mapGet (mapDelete m k) k = none := by
  induction m with
  | nil => simp [mapDelete, mapGet]
  | cons a rest ih =>
      obtain ⟨k', v'⟩ := a
      by_cases h : k' = k
      · simp [mapDelete, h, List.filter] at ih ⊢; exact ih
      · simp [mapDelete, h, List.filter, mapGet_cons] at ih ⊢
        simp [h, ih]

theorem mapGet_mapDelete_ne {α β : Type} [DecidableEq α] (m : List (α × β)) (k k2 : α)
    (h : ¬ k = k2) : mapGet (mapDelete m k2) k = mapGet m k := by
  induction m with
  | nil => simp [mapDelete, mapGet]
  | cons a rest ih =>
      obtain ⟨k', v'⟩ := a
      by_cases h2 : k' = k2
      · subst h2
        have : ¬ k' = k := fun hh => h (hh.symm)
        simp [mapDelete, List.filter, mapGet_cons, this] at ih ⊢
        exact ih
      · simp [mapDelete, List.filter, h2, mapGet_cons] at ih ⊢
        by_cases h3 : k' = k <;> simp [h3, ih]

theorem mem_mapSet_self {α β : Type} [DecidableEq α] (m : List (α × β)) (k : α) (v : β) :
    (k, v) ∈ mapSet m k v := by
  induction m with
  | nil => simp [mapSet]
  | cons a rest ih =>
      obtain ⟨k', v'⟩ := a
      by_cases h : k' = k <;> simp [mapSet, h, ih]

theorem mem_mapSet_of_ne {α β : Type} [DecidableEq α] {m : List (α × β)} {k k2 : α}
    {v v2 : β} (hm : (k, v) ∈ m) (h : ¬ k = k2) : (k, v) ∈ mapSet m k2 v2 := by
  induction m with
  | nil => simp at hm
  | cons a rest ih =>
      obtain ⟨k', v'⟩ := a
      rcases List.mem_cons.mp hm with he | ht
      · rw [← he]
        simp only [mapSet, if_neg h]
        exact List.mem_cons_self ..
      · by_cases h2 : k' = k2
        · simp only [mapSet, if_pos h2]
          exact List.mem_cons_of_mem _ ht
        · simp only [mapSet, if_neg h2]
          exact List.mem_cons_of_mem _ (ih ht)

theorem eq_or_mem_of_mem_mapSet {α β : Type} [DecidableEq α] {m : List (α × β)} {k k2 : α}
    {v v2 : β} (h : (k, v) ∈ mapSet m k2 v2) : (k = k2 ∧ v = v2) ∨ (k, v) ∈ m := by
  induction m with
  | nil =>
      simp [mapSet] at h
      exact Or.inl ⟨h.1, h.2⟩
  | cons a rest ih =>
      obtain ⟨k', v'⟩ := a
      by_cases h2 : k' = k2
      · rw [show mapSet ((k', v') :: rest) k2 v2 = (k2, v2) :: rest by
            simp only [mapSet, if_pos h2]] at h
        rcases List.mem_cons.mp h with he | ht
        · injection he with hk hv
          exact Or.inl ⟨hk, hv⟩
        · exact Or.inr (List.mem_cons_of_mem _ ht)
      · rw [show mapSet ((k', v') :: rest) k2 v2 = (k', v') :: mapSet rest k2 v2 by
            simp only [mapSet, if_neg h2]] at h
        rcases List.mem_cons.mp h with he | ht
        · exact Or.inr (he ▸ List.mem_cons_self ..)
        · rcases ih ht with hl | hr
          · exact Or.inl hl
          · exact Or.inr (List.mem_cons_of_mem _ hr)

theorem mem_mapDelete_iff {α β : Type} [DecidableEq α] {m : List (α × β)} {k k2 : α}
    {v : β} : (k, v) ∈ mapDelete m k2 ↔ (k, v) ∈ m ∧ ¬ k = k2 := by
  simp [mapDelete, List.mem_filter]

theorem length_mapSet_of_mem {α β : Type} [DecidableEq α] {m : List (α × β)} {k : α}
    {v0 : β} (hm : (k, v0) ∈ m) (v : β) : (mapSet m k v).length = m.length := by
  induction m with
  | nil => simp at hm
  | cons a rest ih =>
      obtain ⟨k', v'⟩ := a
      by_cases h : k' = k
      · simp [mapSet, h]
      · rcases List.mem_cons.mp hm with he | ht
        · injection he with hk hv
          exact absurd hk.symm h
        · simp [mapSet, h, ih ht]

theorem filter_mapSet {α β : Type} [DecidableEq α] (m : List (α × β)) (k : α) (v : β) :
    (mapSet m k v).filter (fun p => ¬ p.1 = k) = m.filter (fun p => ¬ p.1 = k) := by
  induction m with
  | nil => simp [mapSet]
  | cons a rest ih =>
      obtain ⟨k', v'⟩ := a
      by_cases h : k' = k
      · simp [mapSet, h, List.filter]
      · simp [mapSet, h, List.filter] at ih ⊢
        exact ih

/-! ### Lemmas about broadcasts and socket.io rooms -/

theorem mem_broadcast_iff {sio : List (String × String)} {mid sender m : String}
    {msg0 msg : Msg} :
    (m, msg) ∈ broadcast sio mid sender msg0 ↔
      msg = msg0 ∧ (mid, m) ∈ sio ∧ ¬ m = sender := by
  constructor
  · intro h
    simp only [broadcast, List.mem_map] at h
    obtain ⟨p, hp, heq⟩ := h
    rw [List.mem_filter] at hp
    obtain ⟨hmem, hpred⟩ := hp
    have hpred' : p.1 = mid ∧ ¬ p.2 = sender := by simpa using hpred
    injection heq with h1 h2
    refine ⟨h2.symm, ?_, h1 ▸ hpred'.2⟩
    have hpm : p = (mid, m) := Prod.ext hpred'.1 h1
    exact hpm ▸ hmem
  · rintro ⟨rfl, hmem, hns⟩
    simp only [broadcast, List.mem_map]
    refine ⟨(mid, m), ?_, rfl⟩
    rw [List.mem_filter]
    exact ⟨hmem, by simpa using hns⟩

/-- Occurrence count of an element in a list, used to state "exactly one
notification". -/
def countIn {α : Type} [DecidableEq α] (l : List α) (x : α) : Nat :=
  (l.filter (fun q => q = x)).length

theorem countIn_nil {α : Type} [DecidableEq α] (x : α) : countIn [] x = 0 := rfl

theorem countIn_cons {α : Type} [DecidableEq α] (a : α) (l : List α) (x : α) :
    countIn (a :: l) x = countIn l x + if a = x then 1 else 0 := by
  by_cases h : a = x <;> simp [countIn, List.filter_cons, h, Nat.add_comm]

theorem countIn_append {α : Type} [DecidableEq α] (l1 l2 : List α) (x : α) :
    countIn (l1 ++ l2) x = countIn l1 x + countIn l2 x := by
  simp [countIn, List.filter_append]

theorem countIn_eq_zero_of_not_mem {α : Type} [DecidableEq α] {l : List α} {x : α}
    (h : ¬ x ∈ l) : countIn l x = 0 := by
  induction l with
  | nil => rfl
  | cons a rest ih =>
      have hax : ¬ a = x := fun hh => h (hh ▸ List.mem_cons_self ..)
      rw [countIn_cons, ih (fun hh => h (List.mem_cons_of_mem _ hh))]
      simp [hax]

theorem countIn_eq_one_of_nodup {α : Type} [DecidableEq α] {l : List α} {x : α}
    (hnd : l.Nodup) (hm : x ∈ l) : countIn l x = 1 := by
  induction l with
  | nil => simp at hm
  | cons a rest ih =>
      rw [List.nodup_cons] at hnd
      rcases List.mem_cons.mp hm with he | ht
      · rw [countIn_cons, countIn_eq_zero_of_not_mem (he ▸ hnd.1), if_pos he.symm]
      · have hax : ¬ a = x := fun hh => hnd.1 (hh ▸ ht)
        rw [countIn_cons, ih hnd.2 ht, if_neg hax]

theorem countIn_broadcast (sio : List (String × String)) (mid sender m : String)
    (msg0 : Msg) (hms : ¬ m = sender) :
    countIn (broadcast sio mid sender msg0) (m, msg0) = countIn sio (mid, m) := by
  induction sio with
  | nil => simp [broadcast, countIn]
  | cons a rest ih =>
      obtain ⟨r, q⟩ := a
      by_cases hpred : r = mid ∧ ¬ q = sender
      · have hfc : broadcast ((r, q) :: rest) mid sender msg0 =
            (q, msg0) :: broadcast rest mid sender msg0 := by
          simp [broadcast, List.filter_cons, hpred.1, hpred.2]
        rw [hfc, countIn_cons, countIn_cons, ih]
        by_cases hq : q = m
        · have h1 : ((q, msg0) : String × Msg) = (m, msg0) := by rw [hq]
          have h2 : ((r, q) : String × String) = (mid, m) := by rw [hpred.1, hq]
          rw [if_pos h1, if_pos h2]
        · have h1 : ¬ (((q, msg0) : String × Msg) = (m, msg0)) := by
            intro hh; injection hh with ha hb; exact hq ha
          have h2 : ¬ (((r, q) : String × String) = (mid, m)) := by
            intro hh; injection hh with ha hb; exact hq hb
          rw [if_neg h1, if_neg h2]
      · have hfc : broadcast ((r, q) :: rest) mid sender msg0 =
            broadcast rest mid sender msg0 := by
          simp only [broadcast, List.filter_cons]
          simp [hpred]
        have h2 : ¬ (((r, q) : String × String) = (mid, m)) := by
          intro hh; injection hh with ha hb
          exact hpred ⟨ha, fun hq => hms (hb ▸ hq)⟩
        rw [hfc, countIn_cons, if_neg h2, ih, Nat.add_zero]

theorem countIn_broadcast_ne_msg (sio : List (String × String)) (mid sender m : String)
    (msg0 msg : Msg) (hne : ¬ msg = msg0) :
    countIn (broadcast sio mid sender msg0) (m, msg) = 0 := by
  apply countIn_eq_zero_of_not_mem
  intro hmem
  exact hne (mem_broadcast_iff.mp hmem).1

theorem countIn_broadcast_eq_one (sio : List (String × String)) (mid sender m : String)
    (msg0 : Msg) (hnd : sio.Nodup) (hm : (mid, m) ∈ sio) (hms : ¬ m = sender) :
    countIn (broadcast sio mid sender msg0) (m, msg0) = 1 := by
  rw [countIn_broadcast sio mid sender m msg0 hms]
  exact countIn_eq_one_of_nodup hnd hm

theorem mem_sioJoin {sio : List (String × String)} (mid sid : String)
    {p : String × String} (h : p ∈ sio) : p ∈ sioJoin sio mid sid := by
  unfold sioJoin
  split
  · exact h
  · exact List.mem_append_left _ h

/-! ### Shapes of the handlers under their guards -/

theorem onJoin_eq_of_not_found {s : ServerState} {mid : String} (sid uname : String)
    (hr : mapGet s.rooms mid = none) :
    onJoin s sid mid uname = (s, [(sid, .meetingError "Meeting not found")]) := by
  simp only [onJoin, hr]

theorem onJoin_eq_of_found {s : ServerState} {mid : String} {room : Room}
    (sid uname : String) (hr : mapGet s.rooms mid = some room) :
    onJoin s sid mid uname =
      ({ s with
          rooms := mapSet s.rooms mid ⟨room.hostId, mapSet room.users sid uname⟩,
          sio := sioJoin s.sio mid sid,
          sockets := mapSet s.sockets sid ⟨some mid, some uname⟩ },
       (sid, .existingUsers
          ((mapSet room.users sid uname).filter (fun p => ¬ p.1 = sid))) ::
         broadcast (sioJoin s.sio mid sid) mid sid (.userJoined sid uname)) := by
  simp only [onJoin, hr]

theorem onDisconnect_eq_of_host {s : ServerState} {sid mid : String} {room : Room}
    (hmid : lookupMid s sid = some mid) (hr : mapGet s.rooms mid = some room)
    (hhost : sid = room.hostId) :
    onDisconnect s sid =
      ({ rooms := mapDelete (mapSet s.rooms mid ⟨room.hostId, mapDelete room.users sid⟩) mid,
         sockets := mapDelete s.sockets sid,
         sio := s.sio.filter (fun p => ¬ p.2 = sid),
         connected := s.connected.filter (fun c => ¬ c = sid) },
       broadcast (s.sio.filter (fun p => ¬ p.2 = sid)) mid sid (.userLeft sid) ++
         broadcast (s.sio.filter (fun p => ¬ p.2 = sid)) mid sid .meetingEnded) := by
  simp only [onDisconnect, hmid, hr]
  rw [if_pos hhost]

theorem onDisconnect_eq_of_guest {s : ServerState} {sid mid : String} {room : Room}
    (hmid : lookupMid s sid = some mid) (hr : mapGet s.rooms mid = some room)
    (hguest : ¬ sid = room.hostId) :
    onDisconnect s sid =
      ({ rooms := mapSet s.rooms mid ⟨room.hostId, mapDelete room.users sid⟩,
         sockets := mapDelete s.sockets sid,
         sio := s.sio.filter (fun p => ¬ p.2 = sid),
         connected := s.connected.filter (fun c => ¬ c = sid) },
       broadcast (s.sio.filter (fun p => ¬ p.2 = sid)) mid sid (.userLeft sid)) := by
  simp only [onDisconnect, hmid, hr]
  rw [if_neg hguest]

theorem onDisconnect_eq_of_noMid {s : ServerState} {sid : String}
    (hmid : lookupMid s sid = none) :
    onDisconnect s sid =
      ({ rooms := s.rooms,
         sockets := mapDelete s.sockets sid,
         sio := s.sio.filter (fun p => ¬ p.2 = sid),
         connected := s.connected.filter (fun c => ¬ c = sid) }, []) := by
  simp only [onDisconnect, hmid]

theorem onDisconnect_eq_of_noRoom {s : ServerState} {sid mid : String}
    (hmid : lookupMid s sid = some mid) (hr : mapGet s.rooms mid = none) :
    onDisconnect s sid =
      ({ rooms := s.rooms,
         sockets := mapDelete s.sockets sid,
         sio := s.sio.filter (fun p => ¬ p.2 = sid),
         connected := s.connected.filter (fun c => ¬ c = sid) }, []) := by
  simp only [onDisconnect, hmid, hr]

/-! ### Concrete states used to witness the theorems

`stAB`: the spec's first scenario after "A creates room R, B joins"
(host `A` alias Alice, member `B` alias Bob).  `stABC` additionally has
member `C` alias Carol.  `stTwoRooms` is the state after `D` joined room
`RA` (host `X`) and then joined room `RB` (host `Y`): `D` is still in room
`RA`'s member map and in both socket.io rooms, but `socket.meetingId` is
`RB`. -/

def stAB : ServerState :=
  ⟨[("R", ⟨"A", [("A", "Alice"), ("B", "Bob")]⟩)],
   [("A", ⟨some "R", some "Alice"⟩), ("B", ⟨some "R", some "Bob"⟩)],
   [("R", "A"), ("R", "B")],
   ["A", "B"]⟩

def stABC : ServerState :=
  ⟨[("R", ⟨"A", [("A", "Alice"), ("B", "Bob"), ("C", "Carol")]⟩)],
   [("A", ⟨some "R", some "Alice"⟩), ("B", ⟨some "R", some "Bob"⟩),
    ("C", ⟨some "R", some "Carol"⟩)],
   [("R", "A"), ("R", "B"), ("R", "C")],
   ["A", "B", "C"]⟩

def stTwoRooms : ServerState :=
  ⟨[("RA", ⟨"X", [("X", "Xena"), ("D", "Dana")]⟩),
    ("RB", ⟨"Y", [("Y", "Yuri"), ("D", "Dana")]⟩)],
   [("X", ⟨some "RA", some "Xena"⟩), ("Y", ⟨some "RB", some "Yuri"⟩),
    ("D", ⟨some "RB", some "Dana"⟩)],
   [("RA", "X"), ("RA", "D"), ("RB", "Y"), ("RB", "D")],
   ["X", "Y", "D"]⟩

/-! ### The claims -/

/-- Claim C5: a join naming a room identifier that does not exist (or whose
room has ended, i.e. was deleted from `rooms`) answers the requester with
the "Meeting not found" rejection and changes nothing: the returned state is
the input state, so no identity binding, no room binding and no member set
is modified. -/
theorem claim_C5 (s : ServerState) (sid rid uname : String)
    (hr : mapGet s.rooms rid = none) :
    step s (.joinMeeting sid rid uname) =
      (s, [(sid, Msg.meetingError "Meeting not found")]) :=
  onJoin_eq_of_not_found sid uname hr

theorem claim_C5_witness :
    mapGet stAB.rooms "Z" = none ∧
    step stAB (.joinMeeting "C" "Z" "Carol") =
      (stAB, [("C", Msg.meetingError "Meeting not found")]) :=
  ⟨by decide, claim_C5 stAB "C" "Z" "Carol" (by decide)⟩

/-- Claim C2 counterexample: in the state where `B` is a member of room `R`,
the client request leave-room() (an event for which server.js registers no
handler) does NOT remove `B` from the room — the state is unchanged and no
notification is sent, contradicting the claim. -/
theorem claim_C2_cex :
    mapGet stAB.rooms "R" = some ⟨"A", [("A", "Alice"), ("B", "Bob")]⟩ ∧
    step stAB (.leaveRoom "B") = (stAB, []) := by
  exact ⟨by decide, rfl⟩

/-- Claim C2 amended: server.js registers no leave-room handler, so a
leave-room request from any connection in any state performs no state change
and sends no notification; membership cleanup and the presence notifications
happen only on disconnect. -/
theorem claim_C2_amended (s : ServerState) (sid : String) :
    step s (.leaveRoom sid) = (s, []) := rfl

/-- Claim C8: each signaling relay (offer, answer, ice-candidate) never
mutates any state (rooms, bindings, membership are all unchanged — the
returned state is the input state), forwards the payload to a connected
target tagged with the sender's identifier, and a relay addressed to an
already-disconnected target (no such connection, no such socket.io room)
is silently dropped: no output, no error, no state change. -/
theorem claim_C8 (s : ServerState) (sid tc td payload : String)
    (hc : tc ∈ s.connected)
    (hd : ¬ td ∈ s.connected)
    (hds : ∀ q : String × String, q ∈ s.sio → ¬ q.1 = td) :
    (step s (.offer sid tc payload)).1 = s ∧
    (step s (.answer sid tc payload)).1 = s ∧
    (step s (.iceCandidate sid tc payload)).1 = s ∧
    (tc, Msg.offerMsg sid payload) ∈ (step s (.offer sid tc payload)).2 ∧
    (tc, Msg.answerMsg sid payload) ∈ (step s (.answer sid tc payload)).2 ∧
    (tc, Msg.iceMsg sid payload) ∈ (step s (.iceCandidate sid tc payload)).2 ∧
    (step s (.offer sid td payload)).1 = s ∧
    (step s (.answer sid td payload)).1 = s ∧
    (step s (.iceCandidate sid td payload)).1 = s ∧
    (step s (.offer sid td payload)).2 = [] ∧
    (step s (.answer sid td payload)).2 = [] ∧
    (step s (.iceCandidate sid td payload)).2 = [] := by
  have hioc : tc ∈ ioTo s tc := by
    unfold ioTo
    rw [if_pos hc]
    exact List.mem_append_left _ (List.mem_cons_self ..)
  have hiod : ioTo s td = [] := by
    unfold ioTo
    rw [if_neg hd, List.nil_append, List.map_eq_nil_iff]
    rw [List.filter_eq_nil_iff]
    intro p hp
    simpa using hds p hp
  refine ⟨rfl, rfl, rfl, ?_, ?_, ?_, rfl, rfl, rfl, ?_, ?_, ?_⟩
  · exact List.mem_map.mpr ⟨tc, hioc, rfl⟩
  · exact List.mem_map.mpr ⟨tc, hioc, rfl⟩
  · exact List.mem_map.mpr ⟨tc, hioc, rfl⟩
  · show (ioTo s td).map _ = []
    rw [hiod]; rfl
  · show (ioTo s td).map _ = []
    rw [hiod]; rfl
  · show (ioTo s td).map _ = []
    rw [hiod]; rfl

theorem claim_C8_witness :
    ("B" ∈ stAB.connected ∧ ¬ "Z" ∈ stAB.connected) ∧
    (("B", Msg.offerMsg "A" "sdp") ∈ (step stAB (.offer "A" "B" "sdp")).2 ∧
     (step stAB (.offer "A" "Z" "sdp")).1 = stAB ∧
     (step stAB (.offer "A" "Z" "sdp")).2 = []) := by
  have h := claim_C8 stAB "A" "B" "Z" "sdp" (by decide) (by decide) (by decide)
  exact ⟨⟨by decide, by decide⟩, h.2.2.2.1, h.2.2.2.2.2.2.1, h.2.2.2.2.2.2.2.2.2.1⟩

/-- Claim C1: when the owner of a room that still has a remaining member `m`
disconnects, the room is deleted from `rooms`, `m` (a remaining member, in
the room's member map and its socket.io room) receives exactly one
room-ended (`meeting-ended`) notification, and a subsequent join request
naming the room identifier is answered with the "Meeting not found" error
and changes nothing.  (The identifier is a fresh UUID, never reallocated, so
the immediately-following join stands for any later one.) -/
theorem claim_C1 (s : ServerState) (rid m c dn nm : String) (room : Room)
    (hr : mapGet s.rooms rid = some room)
    (hmid : lookupMid s room.hostId = some rid)
    (hnd : s.sio.Nodup)
    (hm : (m, dn) ∈ room.users)
    (hmh : ¬ m = room.hostId)
    (hms : (rid, m) ∈ s.sio) :
    mapGet ((step s (.disconnect room.hostId)).1).rooms rid = none ∧
    countIn ((step s (.disconnect room.hostId)).2) (m, Msg.meetingEnded) = 1 ∧
    step ((step s (.disconnect room.hostId)).1) (.joinMeeting c rid nm) =
      ((step s (.disconnect room.hostId)).1,
       [(c, Msg.meetingError "Meeting not found")]) := by
  have hstep : step s (.disconnect room.hostId) = onDisconnect s room.hostId := rfl
  have hd := onDisconnect_eq_of_host hmid hr rfl
  have hnd1 : (s.sio.filter (fun p => ¬ p.2 = room.hostId)).Nodup := hnd.filter _
  have hm1 : (rid, m) ∈ s.sio.filter (fun p => ¬ p.2 = room.hostId) :=
    List.mem_filter.mpr ⟨hms, by simpa using hmh⟩
  refine ⟨?_, ?_, ?_⟩
  · rw [hstep, hd]
    exact mapGet_mapDelete_self ..
  · rw [hstep, hd]
    dsimp only
    rw [countIn_append,
      countIn_broadcast_ne_msg _ _ _ _ _ _ (fun hh => Msg.noConfusion hh),
      countIn_broadcast_eq_one _ _ _ _ _ hnd1 hm1 hmh]
  · rw [hstep, hd]
    exact onJoin_eq_of_not_found c nm (mapGet_mapDelete_self ..)

theorem claim_C1_witness :
    mapGet ((step stAB (Event.disconnect "A")).1).rooms "R" = none ∧
    countIn ((step stAB (Event.disconnect "A")).2) ("B", Msg.meetingEnded) = 1 ∧
    step ((step stAB (Event.disconnect "A")).1) (.joinMeeting "C" "R" "Carol") =
      ((step stAB (Event.disconnect "A")).1,
       [("C", Msg.meetingError "Meeting not found")]) :=
  claim_C1 stAB "R" "B" "C" "Bob" "Carol" ⟨"A", [("A", "Alice"), ("B", "Bob")]⟩
    (by decide) (by decide) (by decide) (by decide) (by decide) (by decide)

/-- Claim C3 counterexample: in the state where `A` owns room `R` with
remaining member `B`, the disconnect of the owner `A` still broadcasts a
participant-left (`user-left`) notification to `B` (server.js line 179 runs
before the host check at line 184), so the participant-left broadcast does
NOT happen exactly when the removed connection was not the owner. -/
theorem claim_C3_cex :
    mapGet stAB.rooms "R" = some ⟨"A", [("A", "Alice"), ("B", "Bob")]⟩ ∧
    ("B", Msg.userLeft "A") ∈ (step stAB (Event.disconnect "A")).2 := by
  exact ⟨by decide, by decide⟩

/-- Claim C3 amended: on every disconnect of a room member, the remaining
members receive exactly one participant-left (`user-left`) notification for
the departed connection regardless of ownership; when (and only when) the
departed connection was the owner they additionally receive exactly one
room-ended (`meeting-ended`) notification. -/
theorem claim_C3 (s : ServerState) (rid sid m : String) (room : Room)
    (hr : mapGet s.rooms rid = some room)
    (hmid : lookupMid s sid = some rid)
    (hnd : s.sio.Nodup)
    (hms : (rid, m) ∈ s.sio)
    (hmsid : ¬ m = sid) :
    countIn ((step s (.disconnect sid)).2) (m, Msg.userLeft sid) = 1 ∧
    countIn ((step s (.disconnect sid)).2) (m, Msg.meetingEnded) =
      (if sid = room.hostId then 1 else 0) := by
  have hstep : step s (.disconnect sid) = onDisconnect s sid := rfl
  have hnd1 : (s.sio.filter (fun p => ¬ p.2 = sid)).Nodup := hnd.filter _
  have hm1 : (rid, m) ∈ s.sio.filter (fun p => ¬ p.2 = sid) :=
    List.mem_filter.mpr ⟨hms, by simpa using hmsid⟩
  by_cases hhost : sid = room.hostId
  · rw [hstep, onDisconnect_eq_of_host hmid hr hhost, if_pos hhost]
    dsimp only
    constructor
    · rw [countIn_append,
        countIn_broadcast_eq_one _ _ _ _ _ hnd1 hm1 hmsid,
        countIn_broadcast_ne_msg _ _ _ _ _ _ (fun hh => Msg.noConfusion hh)]
    · rw [countIn_append,
        countIn_broadcast_ne_msg _ _ _ _ _ _ (fun hh => Msg.noConfusion hh),
        countIn_broadcast_eq_one _ _ _ _ _ hnd1 hm1 hmsid]
  · rw [hstep, onDisconnect_eq_of_guest hmid hr hhost, if_neg hhost]
    dsimp only
    constructor
    · rw [countIn_broadcast_eq_one _ _ _ _ _ hnd1 hm1 hmsid]
    · rw [countIn_broadcast_ne_msg _ _ _ _ _ _ (fun hh => Msg.noConfusion hh)]

theorem claim_C3_witness :
    countIn ((step stAB (Event.disconnect "A")).2) ("B", Msg.userLeft "A") = 1 ∧
    countIn ((step stAB (Event.disconnect "A")).2) ("B", Msg.meetingEnded) =
      (if ("A" : String) = "A" then 1 else 0) :=
  claim_C3 stAB "R" "A" "B" ⟨"A", [("A", "Alice"), ("B", "Bob")]⟩
    (by decide) (by decide) (by decide) (by decide) (by decide)

/-- Claim C4: a join to an existing room delivers to the joiner the member
list as of just before the add with the joiner filtered out (the handler
inserts first and then filters the joiner away, which yields exactly the
pre-add list minus the joiner), and every other current member (in the
room's member map and its socket.io room) receives a `user-joined`
notification carrying the joiner's identifier and display name. -/
theorem claim_C4 (s : ServerState) (rid sid uname m dn : String) (room : Room)
    (hr : mapGet s.rooms rid = some room)
    (hm : (m, dn) ∈ room.users)
    (hmsid : ¬ m = sid)
    (hms : (rid, m) ∈ s.sio) :
    (sid, Msg.existingUsers (room.users.filter (fun p => ¬ p.1 = sid))) ∈
      (step s (.joinMeeting sid rid uname)).2 ∧
    (m, Msg.userJoined sid uname) ∈ (step s (.joinMeeting sid rid uname)).2 := by
  have hstep : step s (.joinMeeting sid rid uname) = onJoin s sid rid uname := rfl
  rw [hstep, onJoin_eq_of_found sid uname hr]
  constructor
  · dsimp only
    rw [filter_mapSet]
    exact List.mem_cons_self ..
  · exact List.mem_cons_of_mem _
      (mem_broadcast_iff.mpr ⟨rfl, mem_sioJoin _ _ hms, hmsid⟩)

theorem claim_C4_witness :
    ("C", Msg.existingUsers [("A", "Alice"), ("B", "Bob")]) ∈
      (step stAB (.joinMeeting "C" "R" "Carol")).2 ∧
    ("A", Msg.userJoined "C" "Carol") ∈ (step stAB (.joinMeeting "C" "R" "Carol")).2 :=
  claim_C4 stAB "R" "C" "Carol" "A" "Alice" ⟨"A", [("A", "Alice"), ("B", "Bob")]⟩
    (by decide) (by decide) (by decide) (by decide)

/-- Claim C6: when a non-owner member of a room with owner and at least two
other members disconnects, the room survives with exactly the remaining
members (the departed entry deleted, owner unchanged), and a remaining
member `m` receives exactly one participant-left (`user-left`) notification
carrying the departed identifier — and no room-ended notification. -/
theorem claim_C6 (s : ServerState) (rid sid m dn : String) (room : Room)
    (hr : mapGet s.rooms rid = some room)
    (hmid : lookupMid s sid = some rid)
    (hguest : ¬ sid = room.hostId)
    (hlen : 3 ≤ room.users.length)
    (hnd : s.sio.Nodup)
    (hm : (m, dn) ∈ room.users)
    (hmsid : ¬ m = sid)
    (hms : (rid, m) ∈ s.sio) :
    mapGet ((step s (.disconnect sid)).1).rooms rid =
      some ⟨room.hostId, mapDelete room.users sid⟩ ∧
    countIn ((step s (.disconnect sid)).2) (m, Msg.userLeft sid) = 1 ∧
    countIn ((step s (.disconnect sid)).2) (m, Msg.meetingEnded) = 0 := by
  have hstep : step s (.disconnect sid) = onDisconnect s sid := rfl
  have hnd1 : (s.sio.filter (fun p => ¬ p.2 = sid)).Nodup := hnd.filter _
  have hm1 : (rid, m) ∈ s.sio.filter (fun p => ¬ p.2 = sid) :=
    List.mem_filter.mpr ⟨hms, by simpa using hmsid⟩
  rw [hstep, onDisconnect_eq_of_guest hmid hr hguest]
  refine ⟨?_, ?_, ?_⟩
  · exact mapGet_mapSet_self ..
  · dsimp only
    rw [countIn_broadcast_eq_one _ _ _ _ _ hnd1 hm1 hmsid]
  · dsimp only
    rw [countIn_broadcast_ne_msg _ _ _ _ _ _ (fun hh => Msg.noConfusion hh)]

theorem claim_C6_witness :
    mapGet ((step stABC (Event.disconnect "B")).1).rooms "R" =
      some ⟨"A", [("A", "Alice"), ("C", "Carol")]⟩ ∧
    countIn ((step stABC (Event.disconnect "B")).2) ("C", Msg.userLeft "B") = 1 ∧
    countIn ((step stABC (Event.disconnect "B")).2) ("C", Msg.meetingEnded) = 0 :=
  claim_C6 stABC "R" "B" "C" "Carol"
    ⟨"A", [("A", "Alice"), ("B", "Bob"), ("C", "Carol")]⟩
    (by decide) (by decide) (by decide) (by decide) (by decide) (by decide)
    (by decide) (by decide)

/-- Claim C10: a second join of the same room by an existing member replaces
the member's display name in place, leaving the member-set size unchanged,
and the list delivered to the re-joiner still excludes the re-joiner
itself. -/
theorem claim_C10 (s : ServerState) (rid sid oldName newName dn : String) (room : Room)
    (hr : mapGet s.rooms rid = some room)
    (hm : (sid, oldName) ∈ room.users) :
    mapGet ((step s (.joinMeeting sid rid newName)).1).rooms rid =
      some ⟨room.hostId, mapSet room.users sid newName⟩ ∧
    (mapSet room.users sid newName).length = room.users.length ∧
    mapGet (mapSet room.users sid newName) sid = some newName ∧
    (sid, Msg.existingUsers (room.users.filter (fun p => ¬ p.1 = sid))) ∈
      (step s (.joinMeeting sid rid newName)).2 ∧
    ¬ (sid, dn) ∈ room.users.filter (fun p => ¬ p.1 = sid) := by
  have hstep : step s (.joinMeeting sid rid newName) = onJoin s sid rid newName := rfl
  refine ⟨?_, length_mapSet_of_mem hm newName, mapGet_mapSet_self .., ?_, ?_⟩
  · rw [hstep, onJoin_eq_of_found sid newName hr]
    exact mapGet_mapSet_self ..
  · rw [hstep, onJoin_eq_of_found sid newName hr]
    dsimp only
    rw [filter_mapSet]
    exact List.mem_cons_self ..
  · intro hmem
    rw [List.mem_filter] at hmem
    simp at hmem

theorem claim_C10_witness :
    mapGet ((step stAB (.joinMeeting "B" "R" "Bobby")).1).rooms "R" =
      some ⟨"A", [("A", "Alice"), ("B", "Bobby")]⟩ ∧
    ([("A", "Alice"), ("B", "Bobby")] : List (String × String)).length =
      ([("A", "Alice"), ("B", "Bob")] : List (String × String)).length ∧
    mapGet [("A", "Alice"), ("B", "Bobby")] "B" = some "Bobby" ∧
    ("B", Msg.existingUsers [("A", "Alice")]) ∈
      (step stAB (.joinMeeting "B" "R" "Bobby")).2 ∧
    ¬ ("B", "Bob") ∈ ([("A", "Alice")] : List (String × String)) :=
  claim_C10 stAB "R" "B" "Bob" "Bobby" "Bob" ⟨"A", [("A", "Alice"), ("B", "Bob")]⟩
    (by decide) (by decide)

/-- Claim C9: a connection `sid` that is a member of room `rA` and then
creates or joins a different room `rB` is still in `rA`'s member map with
its old display name (`rA`'s whole room record is unchanged, only the
socket's `meetingId` moves to `rB`); a later disconnect of `sid` (from any
state `s1` where the socket is bound to `rB`) leaves `rA`'s room record
unchanged and every emitted notification goes to a member of socket.io room
`rB` other than `sid`. -/
theorem claim_C9 (s s1 : ServerState) (rA rB sid uJ dnA : String) (uC : Option String)
    (roomA roomB : Room) (q : String × Msg)
    (hA : mapGet s.rooms rA = some roomA)
    (hmemA : (sid, dnA) ∈ roomA.users)
    (hne : ¬ rA = rB)
    (hB : mapGet s.rooms rB = some roomB)
    (h1A : mapGet s1.rooms rA = some roomA)
    (h1mid : lookupMid s1 sid = some rB)
    (hq : q ∈ (step s1 (.disconnect sid)).2) :
    mapGet ((step s (.createMeeting sid rB uC)).1).rooms rA = some roomA ∧
    lookupMid (step s (.createMeeting sid rB uC)).1 sid = some rB ∧
    mapGet ((step s (.joinMeeting sid rB uJ)).1).rooms rA = some roomA ∧
    lookupMid (step s (.joinMeeting sid rB uJ)).1 sid = some rB ∧
    mapGet ((step s1 (.disconnect sid)).1).rooms rA = some roomA ∧
    (rB, q.1) ∈ s1.sio ∧ ¬ q.1 = sid := by
  have hcreate : step s (.createMeeting sid rB uC) = onCreate s sid rB uC := rfl
  have hjoin : step s (.joinMeeting sid rB uJ) = onJoin s sid rB uJ := rfl
  have hdisc : step s1 (.disconnect sid) = onDisconnect s1 sid := rfl
  refine ⟨?_, ?_, ?_, ?_, ?_, ?_⟩
  · rw [hcreate]
    unfold onCreate
    dsimp only
    rw [mapGet_mapSet_ne _ _ _ _ hne]
    exact hA
  · rw [hcreate]
    unfold onCreate lookupMid
    dsimp only
    rw [mapGet_mapSet_self]
    rfl
  · rw [hjoin, onJoin_eq_of_found sid uJ hB]
    dsimp only
    rw [mapGet_mapSet_ne _ _ _ _ hne]
    exact hA
  · rw [hjoin, onJoin_eq_of_found sid uJ hB]
    unfold lookupMid
    dsimp only
    rw [mapGet_mapSet_self]
    rfl
  · rcases h1B : mapGet s1.rooms rB with _ | roomB1
    · rw [hdisc, onDisconnect_eq_of_noRoom h1mid h1B]
      exact h1A
    · by_cases hhost : sid = roomB1.hostId
      · rw [hdisc, onDisconnect_eq_of_host h1mid h1B hhost]
        dsimp only
        rw [mapGet_mapDelete_ne _ _ _ hne, mapGet_mapSet_ne _ _ _ _ hne]
        exact h1A
      · rw [hdisc, onDisconnect_eq_of_guest h1mid h1B hhost]
        dsimp only
        rw [mapGet_mapSet_ne _ _ _ _ hne]
        exact h1A
  · obtain ⟨qm, qmsg⟩ := q
    rw [hdisc] at hq
    rcases h1B : mapGet s1.rooms rB with _ | roomB1
    · rw [onDisconnect_eq_of_noRoom h1mid h1B] at hq
      simp at hq
    · by_cases hhost : sid = roomB1.hostId
      · rw [onDisconnect_eq_of_host h1mid h1B hhost] at hq
        dsimp only at hq
        rcases List.mem_append.mp hq with hq1 | hq1 <;>
          · obtain ⟨_, hmem, hns⟩ := mem_broadcast_iff.mp hq1
            exact ⟨(List.mem_filter.mp hmem).1, hns⟩
      · rw [onDisconnect_eq_of_guest h1mid h1B hhost] at hq
        dsimp only at hq
        obtain ⟨_, hmem, hns⟩ := mem_broadcast_iff.mp hq
        exact ⟨(List.mem_filter.mp hmem).1, hns⟩

theorem claim_C9_witness :
    mapGet ((step stTwoRooms (.createMeeting "D" "RB" (some "Dana"))).1).rooms "RA" =
      some ⟨"X", [("X", "Xena"), ("D", "Dana")]⟩ ∧
    lookupMid (step stTwoRooms (.createMeeting "D" "RB" (some "Dana"))).1 "D" =
      some "RB" ∧
    mapGet ((step stTwoRooms (.joinMeeting "D" "RB" "Dana")).1).rooms "RA" =
      some ⟨"X", [("X", "Xena"), ("D", "Dana")]⟩ ∧
    lookupMid (step stTwoRooms (.joinMeeting "D" "RB" "Dana")).1 "D" = some "RB" ∧
    mapGet ((step stTwoRooms (Event.disconnect "D")).1).rooms "RA" =
      some ⟨"X", [("X", "Xena"), ("D", "Dana")]⟩ ∧
    ("RB", "Y") ∈ stTwoRooms.sio ∧ ¬ ("Y" : String) = "D" :=
  claim_C9 stTwoRooms stTwoRooms "RA" "RB" "D" "Dana" "Dana" (some "Dana")
    ⟨"X", [("X", "Xena"), ("D", "Dana")]⟩ ⟨"Y", [("Y", "Yuri"), ("D", "Dana")]⟩
    ("Y", Msg.userLeft "D")
    (by decide) (by decide) (by decide) (by decide) (by decide) (by decide) (by decide)

/-! ### The trace invariants behind claim C7 -/

theorem mem_map_fst_iff {l : List (String × String)} {x : String} :
    x ∈ l.map Prod.fst ↔ ∃ dn, (x, dn) ∈ l := by
  constructor
  · intro h
    obtain ⟨⟨a, b⟩, hab, he⟩ := List.mem_map.mp h
    exact ⟨b, (show a = x from he) ▸ hab⟩
  · rintro ⟨dn, h⟩
    exact List.mem_map.mpr ⟨(x, dn), h, rfl⟩

/-- The room-store invariant: every existing room's owner is in its member
map. -/
def HostInv (s : ServerState) : Prop :=
  ∀ rid room, mapGet s.rooms rid = some room → room.hostId ∈ room.users.map Prod.fst

/-- Members only enter a room's map through a create or join recorded in the
trace. -/
def OriginInv (tr : List Event) (s : ServerState) : Prop :=
  ∀ rid room sid dn, mapGet s.rooms rid = some room → (sid, dn) ∈ room.users →
    createdOrJoined tr rid sid

theorem createdOrJoined_mono {tr : List Event} {rid sid : String} (e : Event)
    (h : createdOrJoined tr rid sid) : createdOrJoined (tr ++ [e]) rid sid := by
  unfold createdOrJoined at h ⊢
  simp [List.any_append, h]

theorem createdOrJoined_last_create (tr : List Event) (rid sid : String)
    (u : Option String) :
    createdOrJoined (tr ++ [Event.createMeeting sid rid u]) rid sid := by
  unfold createdOrJoined
  simp [List.any_append, isCreateOrJoin]

theorem createdOrJoined_last_join (tr : List Event) (rid sid u : String) :
    createdOrJoined (tr ++ [Event.joinMeeting sid rid u]) rid sid := by
  unfold createdOrJoined
  simp [List.any_append, isCreateOrJoin]

theorem hostInv_step (s : ServerState) (e : Event) (h : HostInv s) :
    HostInv (step1 s e) := by
  cases e with
  | connect sid => exact h
  | offer sid t p => exact h
  | answer sid t p => exact h
  | iceCandidate sid t p => exact h
  | leaveRoom sid => exact h
  | createMeeting sid mid u =>
      intro rid room hr
      have hrooms : (step1 s (.createMeeting sid mid u)).rooms =
          mapSet s.rooms mid ⟨sid, [(sid, orHost u)]⟩ := rfl
      rw [hrooms] at hr
      by_cases hc : rid = mid
      · subst hc
        rw [mapGet_mapSet_self] at hr
        injection hr with hr2
        rw [← hr2]
        simp
      · rw [mapGet_mapSet_ne _ _ _ _ hc] at hr
        exact h rid room hr
  | joinMeeting sid mid u =>
      rcases hjr : mapGet s.rooms mid with _ | room0
      · have hs1 : step1 s (.joinMeeting sid mid u) = s := by
          show (onJoin s sid mid u).1 = s
          rw [onJoin_eq_of_not_found sid u hjr]
        rw [hs1]
        exact h
      · have hrooms : (step1 s (.joinMeeting sid mid u)).rooms =
            mapSet s.rooms mid ⟨room0.hostId, mapSet room0.users sid u⟩ := by
          show ((onJoin s sid mid u).1).rooms = _
          rw [onJoin_eq_of_found sid u hjr]
        intro rid room hr
        rw [hrooms] at hr
        by_cases hc : rid = mid
        · subst hc
          rw [mapGet_mapSet_self] at hr
          injection hr with hr2
          subst hr2
          obtain ⟨hn, hmem⟩ := mem_map_fst_iff.mp (h rid room0 hjr)
          by_cases hhs : room0.hostId = sid
          · exact mem_map_fst_iff.mpr ⟨u, by rw [hhs]; exact mem_mapSet_self ..⟩
          · exact mem_map_fst_iff.mpr ⟨hn, mem_mapSet_of_ne hmem hhs⟩
        · rw [mapGet_mapSet_ne _ _ _ _ hc] at hr
          exact h rid room hr
  | disconnect sid =>
      rcases hl : lookupMid s sid with _ | mid
      · have hrooms : (step1 s (.disconnect sid)).rooms = s.rooms := by
          show ((onDisconnect s sid).1).rooms = _
          rw [onDisconnect_eq_of_noMid hl]
        intro rid room hr
        rw [hrooms] at hr
        exact h rid room hr
      · rcases hjr : mapGet s.rooms mid with _ | room0
        · have hrooms : (step1 s (.disconnect sid)).rooms = s.rooms := by
            show ((onDisconnect s sid).1).rooms = _
            rw [onDisconnect_eq_of_noRoom hl hjr]
          intro rid room hr
          rw [hrooms] at hr
          exact h rid room hr
        · by_cases hhost : sid = room0.hostId
          · have hrooms : (step1 s (.disconnect sid)).rooms =
                mapDelete (mapSet s.rooms mid ⟨room0.hostId, mapDelete room0.users sid⟩)
                  mid := by
              show ((onDisconnect s sid).1).rooms = _
              rw [onDisconnect_eq_of_host hl hjr hhost]
            intro rid room hr
            rw [hrooms] at hr
            by_cases hc : rid = mid
            · subst hc
              rw [mapGet_mapDelete_self] at hr
              exact absurd hr (by simp)
            · rw [mapGet_mapDelete_ne _ _ _ hc, mapGet_mapSet_ne _ _ _ _ hc] at hr
              exact h rid room hr
          · have hrooms : (step1 s (.disconnect sid)).rooms =
                mapSet s.rooms mid ⟨room0.hostId, mapDelete room0.users sid⟩ := by
              show ((onDisconnect s sid).1).rooms = _
              rw [onDisconnect_eq_of_guest hl hjr hhost]
            intro rid room hr
            rw [hrooms] at hr
            by_cases hc : rid = mid
            · subst hc
              rw [mapGet_mapSet_self] at hr
              injection hr with hr2
              subst hr2
              obtain ⟨hn, hmem⟩ := mem_map_fst_iff.mp (h rid room0 hjr)
              exact mem_map_fst_iff.mpr
                ⟨hn, mem_mapDelete_iff.mpr ⟨hmem, fun hh => hhost hh.symm⟩⟩
            · rw [mapGet_mapSet_ne _ _ _ _ hc] at hr
              exact h rid room hr

theorem originInv_step (tr : List Event) (s : ServerState) (e : Event)
    (h : OriginInv tr s) : OriginInv (tr ++ [e]) (step1 s e) := by
  cases e with
  | connect sid =>
      intro rid room sid2 dn hr hm
      exact createdOrJoined_mono _ (h rid room sid2 dn hr hm)
  | offer sid t p =>
      intro rid room sid2 dn hr hm
      exact createdOrJoined_mono _ (h rid room sid2 dn hr hm)
  | answer sid t p =>
      intro rid room sid2 dn hr hm
      exact createdOrJoined_mono _ (h rid room sid2 dn hr hm)
  | iceCandidate sid t p =>
      intro rid room sid2 dn hr hm
      exact createdOrJoined_mono _ (h rid room sid2 dn hr hm)
  | leaveRoom sid =>
      intro rid room sid2 dn hr hm
      exact createdOrJoined_mono _ (h rid room sid2 dn hr hm)
  | createMeeting sid mid u =>
      intro rid room sid2 dn hr hm
      have hrooms : (step1 s (.createMeeting sid mid u)).rooms =
          mapSet s.rooms mid ⟨sid, [(sid, orHost u)]⟩ := rfl
      rw [hrooms] at hr
      by_cases hc : rid = mid
      · subst hc
        rw [mapGet_mapSet_self] at hr
        injection hr with hr2
        rw [← hr2] at hm
        have hsid : sid2 = sid := by
          simp only [List.mem_singleton, Prod.mk.injEq] at hm
          exact hm.1
        subst hsid
        exact createdOrJoined_last_create ..
      · rw [mapGet_mapSet_ne _ _ _ _ hc] at hr
        exact createdOrJoined_mono _ (h rid room sid2 dn hr hm)
  | joinMeeting sid mid u =>
      intro rid room sid2 dn hr hm
      rcases hjr : mapGet s.rooms mid with _ | room0
      · have hs1 : step1 s (.joinMeeting sid mid u) = s := by
          show (onJoin s sid mid u).1 = s
          rw [onJoin_eq_of_not_found sid u hjr]
        rw [hs1] at hr
        exact createdOrJoined_mono _ (h rid room sid2 dn hr hm)
      · have hrooms : (step1 s (.joinMeeting sid mid u)).rooms =
            mapSet s.rooms mid ⟨room0.hostId, mapSet room0.users sid u⟩ := by
          show ((onJoin s sid mid u).1).rooms = _
          rw [onJoin_eq_of_found sid u hjr]
        rw [hrooms] at hr
        by_cases hc : rid = mid
        · subst hc
          rw [mapGet_mapSet_self] at hr
          injection hr with hr2
          subst hr2
          rcases eq_or_mem_of_mem_mapSet hm with he | hmem
          · rw [he.1]
            exact createdOrJoined_last_join ..
          · exact createdOrJoined_mono _ (h rid room0 sid2 dn hjr hmem)
        · rw [mapGet_mapSet_ne _ _ _ _ hc] at hr
          exact createdOrJoined_mono _ (h rid room sid2 dn hr hm)
  | disconnect sid =>
      intro rid room sid2 dn hr hm
      rcases hl : lookupMid s sid with _ | mid
      · have hrooms : (step1 s (.disconnect sid)).rooms = s.rooms := by
          show ((onDisconnect s sid).1).rooms = _
          rw [onDisconnect_eq_of_noMid hl]
        rw [hrooms] at hr
        exact createdOrJoined_mono _ (h rid room sid2 dn hr hm)
      · rcases hjr : mapGet s.rooms mid with _ | room0
        · have hrooms : (step1 s (.disconnect sid)).rooms = s.rooms := by
            show ((onDisconnect s sid).1).rooms = _
            rw [onDisconnect_eq_of_noRoom hl hjr]
          rw [hrooms] at hr
          exact createdOrJoined_mono _ (h rid room sid2 dn hr hm)
        · by_cases hhost : sid = room0.hostId
          · have hrooms : (step1 s (.disconnect sid)).rooms =
                mapDelete (mapSet s.rooms mid ⟨room0.hostId, mapDelete room0.users sid⟩)
                  mid := by
              show ((onDisconnect s sid).1).rooms = _
              rw [onDisconnect_eq_of_host hl hjr hhost]
            rw [hrooms] at hr
            by_cases hc : rid = mid
            · subst hc
              rw [mapGet_mapDelete_self] at hr
              exact absurd hr (by simp)
            · rw [mapGet_mapDelete_ne _ _ _ hc, mapGet_mapSet_ne _ _ _ _ hc] at hr
              exact createdOrJoined_mono _ (h rid room sid2 dn hr hm)
          · have hrooms : (step1 s (.disconnect sid)).rooms =
                mapSet s.rooms mid ⟨room0.hostId, mapDelete room0.users sid⟩ := by
              show ((onDisconnect s sid).1).rooms = _
              rw [onDisconnect_eq_of_guest hl hjr hhost]
            rw [hrooms] at hr
            by_cases hc : rid = mid
            · subst hc
              rw [mapGet_mapSet_self] at hr
              injection hr with hr2
              subst hr2
              have hmem := mem_mapDelete_iff.mp hm
              exact createdOrJoined_mono _ (h rid room0 sid2 dn hjr hmem.1)
            · rw [mapGet_mapSet_ne _ _ _ _ hc] at hr
              exact createdOrJoined_mono _ (h rid room sid2 dn hr hm)

theorem run_append_single (s : ServerState) (tr : List Event) (e : Event) :
    run s (tr ++ [e]) = step1 (run s tr) e := by
  simp [run, List.foldl_append]

theorem hostInv_run (tr : List Event) : HostInv (run init tr) := by
  induction tr using List.reverseRecOn with
  | nil =>
      intro rid room hr
      simp [run, init, mapGet] at hr
  | append_singleton t e ih =>
      rw [run_append_single]
      exact hostInv_step _ _ ih

theorem originInv_run (tr : List Event) : OriginInv tr (run init tr) := by
  induction tr using List.reverseRecOn with
  | nil =>
      intro rid room sid dn hr hm
      simp [run, init, mapGet] at hr
  | append_singleton t e ih =>
      rw [run_append_single]
      exact originInv_step _ _ _ ih

/-- Claim C7: after any trace of events run from the empty server state,
every member identifier of any existing room previously created or joined
that room, and the room's owner is among the room's member identifiers. -/
theorem claim_C7 (tr : List Event) (rid sid dn : String) (room : Room)
    (h : mapGet (run init tr).rooms rid = some room)
    (hm : (sid, dn) ∈ room.users) :
    createdOrJoined tr rid sid ∧ room.hostId ∈ room.users.map Prod.fst :=
  ⟨originInv_run tr rid room sid dn h hm, hostInv_run tr rid room h⟩

/-- The spec's first scenario as a trace: A creates room R, B joins. -/
def trW : List Event :=
  [.connect "A", .createMeeting "A" "R" (some "Alice"),
   .connect "B", .joinMeeting "B" "R" "Bob"]

theorem claim_C7_witness :
    createdOrJoined trW "R" "B" ∧
    ("A" : String) ∈ ([("A", "Alice"), ("B", "Bob")] : List (String × String)).map
      Prod.fst :=
  claim_C7 trW "R" "B" "Bob" ⟨"A", [("A", "Alice"), ("B", "Bob")]⟩
    (by decide) (by decide)

end Meeting
